import Mathlib

/-!
Verification of `pandapowerFMU` (file `pandapowerFMU/PandapowerFMUClass.py`)
against its natural-language specification.

Times and numeric field values are modelled as exact rationals (`ℚ`);
pandas tables are modelled as lists of rows with positional (range) indices,
which matches the default integer index of the dataframes involved.
-/

/-- Python's float modulo `a % c` for a positive modulus `c`:
`a - c * floor (a / c)` (the remainder carries the sign of the divisor).
Used in `doStep` as `(currentCommunicationPoint - self._t_start) % self.net.time_step`. -/
def pymod (a c : ℚ) : ℚ := a - c * ⌊a / c⌋

/-- Model of `numpy.arange(lo, hi, step)` for a positive `step` over exact
rationals: the values `lo + k * step` for `k = 0, 1, ...` lying in `[lo, hi)`;
its length is `⌈(hi - lo) / step⌉` when `lo < hi` and `0` otherwise. -/
def arange (lo hi step : ℚ) : List ℚ :=
  if lo < hi then
    (List.range (⌈(hi - lo) / step⌉.toNat)).map (fun k : ℕ => lo + (k : ℚ) * step)
  else []

/-- The solve instants computed by `doStep` (lines 51-62 of
`PandapowerFMUClass.py`): the list `sim_steps`.  It always contains
`currentCommunicationPoint`; when the network carries a `time_step` attribute
(the cadence), the additional instants are
`np.arange(start + (c - (start - t_start) % c), start + stepSize, c)`. -/
def computeInstants (start stepSize lastInit : ℚ) (cadence : Option ℚ) : List ℚ :=
  match cadence with
  | none => [start]
  | some c =>
      start :: arange (start + (c - pymod (start - lastInit) c)) (start + stepSize) c

/-- One row of a pandapower dataframe: the value of its `name` column together
with the remaining named columns.  The value type is a parameter (`ℚ` for the
real network, `ℕ` in concrete test nets). -/
structure Row (α : Type) where
  name : String
  fields : List (String × α)
deriving DecidableEq

/-- A pandapower dataframe with its default positional integer index
(row `i` of the list carries index label `i`). -/
abbrev Table (α : Type) := List (Row α)

/-- The pandapower network object: a named collection of dataframes, accessed
in the source by `getattr(self.net, classname)`. -/
structure Net (α : Type) where
  tables : List (String × Table α)
deriving DecidableEq

/-- Model of `getattr(self.net, classname)`: `none` models `AttributeError`. -/
def Net.getTable? {α : Type} (net : Net α) (cls : String) : Option (Table α) :=
  (net.tables.find? (fun p => p.1 == cls)).map Prod.snd

/-- Replacing a table of the network (the effect of an in-place column
assignment on the dataframe named `cls`). -/
def Net.setTable {α : Type} (net : Net α) (cls : String) (t : Table α) : Net α :=
  ⟨net.tables.map (fun p => if p.1 = cls then (p.1, t) else p)⟩

/-- Python's `str.split('.')` on the character list: `''.split('.') = ['']`,
`'a..b'.split('.') = ['a', '', 'b']`. -/
def splitDotChars : List Char → List (List Char)
  | [] => [[]]
  | c :: cs =>
      if c = '.' then [] :: splitDotChars cs
      else
        match splitDotChars cs with
        | [] => [[c]]
        | t :: ts => (c :: t) :: ts

/-- Python's `key.split('.')` (lines 175-177 / 194-196 of the source). -/
def pySplitDot (s : String) : List String :=
  (splitDotChars s.data).map (fun l => { data := l })

/-- Python's `classname.startswith('res_')`. -/
def startsWithRes (s : String) : Bool :=
  "res_".data.isPrefixOf s.data

/-- Python's `classname.split('res_')[1]` (line 181): for a table name in
which the 4-character result marker `res_` occurs only as the leading prefix
(the documented naming convention), this is the name with the marker dropped. -/
def dropResMarker (s : String) : String :=
  { data := s.data.drop 4 }

/-- Parsing `key.split('.')[0]`, `[1]`, `[2]` from the source: `none` models
the `IndexError` raised when fewer than three dot-separated tokens exist;
surplus tokens beyond the third are ignored by the source. -/
def parseBinding (key : String) : Option (String × String × String) :=
  match pySplitDot key with
  | cls :: comp :: field :: _ => some (cls, comp, field)
  | _ => none

/-- The table in which the component name is looked up (lines 178-183): the
stripped-prefix definition table for `res_*` tables, the table itself
otherwise. -/
def lookupTableName (cls : String) : String :=
  if startsWithRes cls then dropResMarker cls else cls

/-- Model of `getattr(net, tbl).index[getattr(net, lookup)['name'] == comp]`:
the index labels at which the boolean mask `name == comp` holds.  With the
default positional index these are the positions of the matching rows. -/
def matchingIdx {α : Type} (tbl : Table α) (comp : String) : List ℕ :=
  (tbl.enum.filter (fun p => p.2.name == comp)).map Prod.fst

/-- Row-index resolution of a binding (lines 178-183 and 197-202): the mask is
evaluated on the table named by `lookupTableName cls`. -/
def resolveIx {α : Type} (net : Net α) (cls comp : String) : Option (List ℕ) :=
  (net.getTable? (lookupTableName cls)).map (fun t => matchingIdx t comp)

/-- Setting one named column of a row to a value (the row-wise effect of
`df[parametername][ix] = val`); the column is assumed to exist. -/
def setField {α : Type} (r : Row α) (field : String) (v : α) : Row α :=
  { r with fields := r.fields.map (fun p => if p.1 = field then (p.1, v) else p) }

/-- The write path of `_get_and_set_fmi_inputs` (lines 175-184): parse the
binding path, resolve the row indices, and assign the value to the addressed
column at every resolved row of the table named by the first token.  `none`
models a raised error (`IndexError` on a short path, `AttributeError` on a
missing table); note the source never rejects writes to `res_*` tables. -/
def writeBinding {α : Type} (net : Net α) (key : String) (v : α) : Option (Net α) :=
  (parseBinding key).bind (fun b =>
    (resolveIx net b.1 b.2.1).bind (fun ix =>
      (net.getTable? b.1).map (fun tbl =>
        net.setTable b.1 (tbl.enum.map
          (fun p => if p.1 ∈ ix then setField p.2 b.2.2 v else p.2)))))

/-- The read path of `_set_outputs` (lines 194-203) up to the row selection
`getattr(net, classname)[parametername][ix]`: the values of the addressed
column at the resolved row indices. -/
def readBinding {α : Type} (net : Net α) (key : String) : Option (List α) :=
  (parseBinding key).bind (fun b =>
    (resolveIx net b.1 b.2.1).bind (fun ix =>
      (net.getTable? b.1).map (fun tbl =>
        ix.filterMap (fun i =>
          ((tbl.getD i ⟨"", []⟩).fields.find? (fun f => f.1 == b.2.2)).map Prod.snd))))

/-- `get_interpolated_row(df, time)` (lines 251-284) for a float-typed series,
modelled as a time-indexed list of (time, value) pairs with strictly
increasing times (pandas requires a monotonic index for the `ffill` / `bfill`
lookups used here).  `df.index.get_loc(time, method='ffill')` is the position
of the largest index entry at most `time`, computed on a sorted list as the
length of the `≤ time` prefix minus one; `method='bfill'` is the position of
the smallest index entry at least `time`, computed as `findIdx`.
Extrapolation returns the first / last row; an exact index hit returns the
stored row; otherwise two bounding rows are combined linearly.  The
non-float (`method='nearest'`) branch of the source is not modelled because
the series here is numeric. -/
def get_interpolated_row (s : List (ℚ × ℚ)) (time : ℚ) : Option ℚ :=
  match s with
  | [] => none
  | p :: rest =>
      if time < p.1 then some p.2
      else if ((p :: rest).getLast (List.cons_ne_nil p rest)).1 < time then
        some ((p :: rest).getLast (List.cons_ne_nil p rest)).2
      else
        let i1 := ((p :: rest).takeWhile (fun q => decide (q.1 ≤ time))).length - 1
        let p1 := (p :: rest).getD i1 (0, 0)
        if time = p1.1 then some p1.2
        else
          let i2 := (p :: rest).findIdx (fun q => decide (time ≤ q.1))
          let p2 := (p :: rest).getD i2 (0, 0)
          some (p1.2 + (time - p1.1) * (p2.2 - p1.2) / (p2.1 - p1.1))

/-- One of the four primitive FMI kinds. -/
inductive Kind
  | real
  | integer
  | boolean
  | string
deriving DecidableEq

/-- One of the three FMI roles. -/
inductive Role
  | input
  | output
  | parameter
deriving DecidableEq

/-- A registration call to the external adapter interface: which declaration
method was invoked (its kind channel and role) and with which binding names.
`DefineCall .real .output ns` stands for `defineRealOutputs(*ns)`. -/
structure DefineCall where
  kind : Kind
  role : Role
  names : List String
deriving DecidableEq

/-- One of the dictionaries `fmi_input_vars` / `fmi_output_vars` /
`fmi_parameters`: for each primitive-kind name, the declared binding paths if
that key is present. -/
structure VarMap where
  real : Option (List String)
  integer : Option (List String)
  boolean : Option (List String)
  string : Option (List String)
deriving DecidableEq

/-- The declaration metadata carried by the network object (each attribute is
optional, tested with `hasattr` in the source). -/
structure NetMeta where
  fmi_input_vars : Option VarMap
  fmi_output_vars : Option VarMap
  fmi_parameters : Option VarMap
deriving DecidableEq

/-- The sequence of adapter registration calls made by
`_initialize_fmi_inputs` (lines 100-129).  Note lines 113-119 of the source:
all four kinds of outputs are registered through `defineRealOutputs`. -/
def initializeFmiInputs (net : NetMeta) : List DefineCall :=
  (match net.fmi_input_vars with
   | none => []
   | some d =>
       (match d.real with | some ns => [⟨Kind.real, Role.input, ns⟩] | none => []) ++
       (match d.integer with | some ns => [⟨Kind.integer, Role.input, ns⟩] | none => []) ++
       (match d.boolean with | some ns => [⟨Kind.boolean, Role.input, ns⟩] | none => []) ++
       (match d.string with | some ns => [⟨Kind.string, Role.input, ns⟩] | none => [])) ++
  (match net.fmi_output_vars with
   | none => []
   | some d =>
       (match d.real with | some ns => [⟨Kind.real, Role.output, ns⟩] | none => []) ++
       (match d.integer with | some ns => [⟨Kind.real, Role.output, ns⟩] | none => []) ++
       (match d.boolean with | some ns => [⟨Kind.real, Role.output, ns⟩] | none => []) ++
       (match d.string with | some ns => [⟨Kind.real, Role.output, ns⟩] | none => [])) ++
  (match net.fmi_parameters with
   | none => []
   | some d =>
       (match d.real with | some ns => [⟨Kind.real, Role.parameter, ns⟩] | none => []) ++
       (match d.integer with | some ns => [⟨Kind.integer, Role.parameter, ns⟩] | none => []) ++
       (match d.boolean with | some ns => [⟨Kind.boolean, Role.parameter, ns⟩] | none => []) ++
       (match d.string with | some ns => [⟨Kind.string, Role.parameter, ns⟩] | none => []))

/-- A network declaring one Integer output binding and nothing else. -/
def netMetaIntOut : NetMeta :=
  ⟨none, some ⟨none, some ["sgen.SGen1.q_mvar"], none, none⟩, none⟩

/-- One row of the `net.profiles` dataframe: the binding target
(`class`, `component`, `parameter`), the external source (`file`, `column`)
and the optional already-materialized series (`none` models a cell that is
not a `pd.Series`).  A series is time-indexed: a list of (time, value). -/
structure ProfileRow (α : Type) where
  cls : String
  component : String
  parameter : String
  file : String
  column : ℕ
  profile : Option (List (ℚ × α))
deriving DecidableEq

/-- The per-row body of `_load_profiles` (lines 138-142): a row whose
`profile` cell already holds a series is left as is; otherwise the series is
read from the declared file and column.  `readCsv f c` abstracts
`pd.read_csv(f, header=None, index_col=0, usecols=[0, c])[c]`, the series
keyed on the first column as time. -/
def loadProfileRow {α : Type} (readCsv : String → ℕ → List (ℚ × α))
    (r : ProfileRow α) : ProfileRow α :=
  match r.profile with
  | some _ => r
  | none => { r with profile := some (readCsv r.file r.column) }

/-- `_load_profiles` (lines 131-142) over the whole `profiles` table. -/
def load_profiles {α : Type} (readCsv : String → ℕ → List (ℚ × α))
    (rows : List (ProfileRow α)) : List (ProfileRow α) :=
  rows.map (loadProfileRow readCsv)

/-- Flattening of one copied result table by `get_pp_results`
(lines 305-314): the rows are re-indexed by the component names taken from
the definition table, then all fields of all rows are stacked into one flat
sequence of (table key, component name, field name, value). -/
def flattenResTable {α : Type} (defTbl : Table α) (key : String) (tbl : Table α) :
    List (String × String × String × α) :=
  (tbl.enum.map (fun p =>
    p.2.fields.map (fun f => (key, (defTbl.getD p.1 ⟨"", []⟩).name, f.1, f.2)))).flatten

/-- `get_pp_results(net, time)` (lines 287-319) with the state of `net`
threaded explicitly: the source copies every non-empty `res_*` dataframe
(line 298, `.copy()`) and mutates only the copies, so the network after the
call is the input network, returned here alongside the time-stamped flattened
row.  `none` models the `RuntimeError` raised when no non-empty result table
exists. -/
def get_pp_results {α : Type} (net : Net α) (time : ℚ) :
    Option (Net α × ℚ × List (String × String × String × α)) :=
  if (net.tables.filter (fun p => startsWithRes p.1 && !p.2.isEmpty)).isEmpty then none
  else
    some (net, time,
      ((net.tables.filter (fun p => startsWithRes p.1 && !p.2.isEmpty)).map (fun p =>
        flattenResTable ((net.getTable? (dropResMarker p.1)).getD []) (dropResMarker p.1)
          p.2)).flatten)

/-- Python's `file.endswith('.p')` (line 28). -/
def endsWithP (s : String) : Bool :=
  ".p".data.isSuffixOf s.data

/-- The model-file search of `init` (lines 27-29): iterate over the directory
listing and load every file ending in `.p`, each load overwriting `self.net`;
the network that remains is the one from the last such file. -/
def loadNetFile (files : List String) : Option String :=
  files.foldl (fun acc f => if endsWithP f then some f else acc) none

/-- Lines 27-31 of `init`: the loaded model file, or the `RuntimeError`
raised when no file ends in `.p` (in which case the FMU is not initialized). -/
def initLoadNet (files : List String) : Except String String :=
  match loadNetFile files with
  | some f => Except.ok f
  | none => Except.error "Loading pandapower network from file failed"

/-- A network with a definition table `load` and result table `res_load`,
used to exercise a write through a `res_*` binding. -/
def netC3 : Net ℕ :=
  ⟨[("load", [⟨"Load1", [("p_mw", 1)]⟩]),
    ("res_load", [⟨"", [("p_mw", 10)]⟩])]⟩

/-- `netC3` after the write `res_load.Load1.p_mw := 5`. -/
def netC3w : Net ℕ :=
  ⟨[("load", [⟨"Load1", [("p_mw", 1)]⟩]),
    ("res_load", [⟨"", [("p_mw", 5)]⟩])]⟩

/-- A network whose `load` table has the row named `Load1` at index 2, with
result table `res_load` holding distinct values at each index. -/
def netC5 : Net ℕ :=
  ⟨[("load", [⟨"Load0", []⟩, ⟨"OtherLoad", []⟩, ⟨"Load1", []⟩]),
    ("res_load", [⟨"", [("p_mw", 10)]⟩, ⟨"", [("p_mw", 20)]⟩, ⟨"", [("p_mw", 30)]⟩])]⟩

/-- A network whose `load` table has no row named `Nope` and two rows named
`Dup`. -/
def netC8 : Net ℕ :=
  ⟨[("load", [⟨"A", [("p_mw", 1)]⟩, ⟨"Dup", [("p_mw", 2)]⟩, ⟨"Dup", [("p_mw", 3)]⟩])]⟩

/-- `netC8` after the write `load.Dup.p_mw := 7`: both matching rows updated. -/
def netC8w : Net ℕ :=
  ⟨[("load", [⟨"A", [("p_mw", 1)]⟩, ⟨"Dup", [("p_mw", 7)]⟩, ⟨"Dup", [("p_mw", 7)]⟩])]⟩

/-- A profiles table with one row lacking a series and one row already
holding a series. -/
def rowsC6 : List (ProfileRow ℕ) :=
  [⟨"load", "L1", "p_mw", "profiles.csv", 2, none⟩,
   ⟨"load", "L2", "p_mw", "unused.csv", 0, some [(0, 5)]⟩]

/-- A concrete profile reader used to exercise `load_profiles`. -/
def csvC6 : String → ℕ → List (ℚ × ℕ) :=
  fun _ _ => [(0, 9)]

/-- A network with one definition table `bus` and one non-empty result table
`res_bus`. -/
def netC9 : Net ℕ :=
  ⟨[("bus", [⟨"B1", []⟩]), ("res_bus", [⟨"", [("vm_pu", 1)]⟩])]⟩

theorem arange_length (lo hi step : ℚ) :
    (arange lo hi step).length = if lo < hi then ⌈(hi - lo) / step⌉.toNat else 0 := by
  unfold arange
  split <;> simp

theorem arange_getD (lo hi step : ℚ) (i : ℕ) (h : i < (arange lo hi step).length) :
    (arange lo hi step).getD i 0 = lo + (i : ℚ) * step := by
  unfold arange at h ⊢
  by_cases hlt : lo < hi
  · rw [if_pos hlt] at h ⊢
    simp only [List.length_map, List.length_range] at h
    simp [List.getD_eq_getElem?_getD, List.getElem?_map, List.getElem?_range, h]
  · rw [if_neg hlt] at h
    simp at h

theorem arange_lt (lo hi step : ℚ) (hs : 0 < step) :
    ∀ x ∈ arange lo hi step, x < hi := by
  intro x hx
  unfold arange at hx
  split at hx
  · rename_i hlt
    simp only [List.mem_map, List.mem_range] at hx
    obtain ⟨k, hk, rfl⟩ := hx
    set u : ℚ := (hi - lo) / step with hu
    have hupos : 0 < u := div_pos (by linarith) hs
    have hceil : (⌈u⌉.toNat : ℤ) = ⌈u⌉ := Int.toNat_of_nonneg (Int.ceil_nonneg hupos.le)
    have hk1 : (k : ℚ) + 1 ≤ (⌈u⌉.toNat : ℚ) := by exact_mod_cast Nat.succ_le_of_lt hk
    have h1 : ((⌈u⌉.toNat : ℚ)) = ((⌈u⌉ : ℤ) : ℚ) := by exact_mod_cast hceil
    have hceil_lt : ((⌈u⌉ : ℚ)) - 1 < u := by
      have := Int.ceil_lt_add_one u
      push_cast at this ⊢
      linarith
    have hkq : (k : ℚ) < u := by
      rw [h1] at hk1
      linarith
    have : (k : ℚ) * step < u * step := by
      exact mul_lt_mul_of_pos_right hkq hs
    have hustep : u * step = hi - lo := div_mul_cancel₀ _ hs.ne'
    linarith
  · simp at hx

theorem arange_complete (lo hi step : ℚ) (hs : 0 < step) :
    hi ≤ lo + ((arange lo hi step).length : ℚ) * step := by
  rw [arange_length]
  split
  · rename_i hlt
    set u : ℚ := (hi - lo) / step with hu
    have hupos : 0 < u := div_pos (by linarith) hs
    have hceil : (⌈u⌉.toNat : ℤ) = ⌈u⌉ := Int.toNat_of_nonneg (Int.ceil_nonneg hupos.le)
    have hle : u ≤ (⌈u⌉.toNat : ℚ) := by
      have h1 : u ≤ ((⌈u⌉ : ℤ) : ℚ) := Int.le_ceil u
      have h2 : ((⌈u⌉.toNat : ℚ)) = ((⌈u⌉ : ℤ) : ℚ) := by exact_mod_cast hceil
      rw [h2]
      exact h1
    have : u * step ≤ (⌈u⌉.toNat : ℚ) * step := mul_le_mul_of_nonneg_right hle hs.le
    have hustep : u * step = hi - lo := div_mul_cancel₀ _ hs.ne'
    linarith
  · rename_i hge
    push_neg at hge
    simpa using hge

/-- C1: for cadence `c > 0`, the solve instants of one external step are the
start time followed by the on-cadence points: with
`phase = (start - lastInitTime) mod c` the first additional instant is
`start + (c - phase)` (which is `start + c` when `phase = 0`), subsequent ones
advance by `c` while strictly below `start + stepSize`, and the list is
complete (the next on-cadence point would reach `start + stepSize`);
`computeInstants 0 10 0 (cadence 3) = [0, 3, 6, 9]` and with no cadence the
result is `[start]` only. -/
theorem C1_step_scheduler (start stepSize lastInit c : ℚ) (hc : 0 < c) :
    computeInstants start stepSize lastInit none = [start] ∧
    (∀ first tail,
      first = (if pymod (start - lastInit) c = 0 then start + c
               else start + (c - pymod (start - lastInit) c)) →
      tail = List.drop 1 (computeInstants start stepSize lastInit (some c)) →
      computeInstants start stepSize lastInit (some c) = start :: tail ∧
      (∀ i, i < tail.length → tail.getD i 0 = first + (i : ℚ) * c) ∧
      (∀ x ∈ tail, x < start + stepSize) ∧
      start + stepSize ≤ first + (tail.length : ℚ) * c) ∧
    computeInstants 0 10 0 (some 3) = [0, 3, 6, 9] ∧
    computeInstants 0 10 0 none = [0] := by
  refine ⟨rfl, ?_, ?_, rfl⟩
  · intro first tail hf ht
    have hf' : first = start + (c - pymod (start - lastInit) c) := by
      rw [hf]
      split
      · rename_i h0
        rw [h0, sub_zero]
      · rfl
    have ht' : tail = arange (start + (c - pymod (start - lastInit) c)) (start + stepSize) c := by
      rw [ht]
      rfl
    subst hf' ht'
    refine ⟨rfl, ?_, ?_, ?_⟩
    · intro i hi
      exact arange_getD _ _ _ i hi
    · exact arange_lt _ _ _ hc
    · exact arange_complete _ _ _ hc
  · have hm : pymod ((0 : ℚ) - 0) 3 = 0 := by simp [pymod]
    show (0 : ℚ) :: arange (0 + (3 - pymod ((0 : ℚ) - 0) 3)) (0 + 10) 3 = [0, 3, 6, 9]
    rw [hm]
    norm_num
    have h3 : arange (3 : ℚ) 10 3 = (List.range (⌈((10 : ℚ) - 3) / 3⌉.toNat)).map
        (fun k : ℕ => (3 : ℚ) + (k : ℚ) * 3) := by
      unfold arange
      rw [if_pos (by norm_num : (3 : ℚ) < 10)]
    have hceil : ⌈((10 : ℚ) - 3) / 3⌉ = 3 := by
      rw [Int.ceil_eq_iff]
      norm_num
    rw [h3, hceil]
    have htn : (3 : ℤ).toNat = 3 := rfl
    rw [htn]
    simp [List.range_succ]
    norm_num

/-- Witness for C1 at `start = 0`, `stepSize = 10`, `lastInit = 0`, `c = 3`. -/
theorem C1_step_scheduler_witness :
    (0 : ℚ) < 3 ∧
    (computeInstants 0 10 0 none = [0] ∧
    (∀ first tail,
      first = (if pymod ((0 : ℚ) - 0) 3 = 0 then (0 : ℚ) + 3
               else 0 + (3 - pymod ((0 : ℚ) - 0) 3)) →
      tail = List.drop 1 (computeInstants 0 10 0 (some 3)) →
      computeInstants 0 10 0 (some 3) = 0 :: tail ∧
      (∀ i, i < tail.length → tail.getD i 0 = first + (i : ℚ) * 3) ∧
      (∀ x ∈ tail, x < 0 + 10) ∧
      (0 : ℚ) + 10 ≤ first + (tail.length : ℚ) * 3) ∧
    computeInstants 0 10 0 (some 3) = [0, 3, 6, 9] ∧
    computeInstants 0 10 0 none = [0]) :=
  ⟨by norm_num, C1_step_scheduler 0 10 0 3 (by norm_num)⟩

/-- C2 (code bug): a network declaring only an Integer output produces a
single registration call, and that call goes through the Real-output channel
(`defineRealOutputs`, source line 115) instead of the Integer-output one;
no call with the Integer kind is made at all. -/
theorem C2_output_kind_channel_bug :
    initializeFmiInputs netMetaIntOut =
      [⟨Kind.real, Role.output, ["sgen.SGen1.q_mvar"]⟩] ∧
    ∀ c ∈ initializeFmiInputs netMetaIntOut, c.kind ≠ Kind.integer := by
  decide

/-- C3 counterexample: a write through the binding `res_load.Load1.p_mw`
does not fail with any error; it succeeds and changes the result table
`res_load` (value 10 becomes 5). -/
theorem C3_write_res_counterexample :
    writeBinding netC3 "res_load.Load1.p_mw" 5 = some netC3w ∧
    netC3w.getTable? "res_load" ≠ netC3.getTable? "res_load" := by
  decide

/-- C7 counterexample: the binding path `load.A.p_mw.x` has four
dot-separated tokens, yet resolution does not fail: the first three tokens
are used and the write goes through. -/
theorem C7_four_token_counterexample :
    (pySplitDot "load.A.p_mw.x").length = 4 ∧
    parseBinding "load.A.p_mw.x" = some ("load", "A", "p_mw") ∧
    writeBinding netC8 "load.A.p_mw.x" 9 =
      some ⟨[("load",
        [⟨"A", [("p_mw", 9)]⟩, ⟨"Dup", [("p_mw", 2)]⟩, ⟨"Dup", [("p_mw", 3)]⟩])]⟩ := by
  decide

/-- C8 counterexample: with no row named `Nope` the write succeeds and
silently leaves the network unchanged (no `UnknownComponentError`), and with
two rows named `Dup` the write succeeds and updates both rows (no
`AmbiguousComponentError`). -/
theorem C8_match_count_counterexample :
    writeBinding netC8 "load.Nope.p_mw" 9 = some netC8 ∧
    writeBinding netC8 "load.Dup.p_mw" 7 = some netC8w ∧
    netC8w ≠ netC8 := by
  decide

theorem mem_matchingIdx {α : Type} (tbl : Table α) (comp : String) (i : ℕ) :
    i ∈ matchingIdx tbl comp ↔ ∃ r, tbl[i]? = some r ∧ r.name = comp := by
  unfold matchingIdx
  constructor
  · intro h
    simp only [List.mem_map] at h
    obtain ⟨p, hp, rfl⟩ := h
    rw [List.mem_filter] at hp
    obtain ⟨hmem, hname⟩ := hp
    rcases p with ⟨j, r⟩
    rw [List.mk_mem_enum_iff_getElem?] at hmem
    exact ⟨r, hmem, by simpa using hname⟩
  · rintro ⟨r, hr, hname⟩
    simp only [List.mem_map]
    refine ⟨(i, r), ?_, rfl⟩
    rw [List.mem_filter]
    exact ⟨List.mk_mem_enum_iff_getElem?.mpr hr, by simpa using hname⟩

theorem find?_map_setTable {α : Type} (l : List (String × Table α)) (cls : String)
    (t : Table α) :
    (l.map (fun p => if p.1 = cls then (p.1, t) else p)).find? (fun p => p.1 == cls) =
      (l.find? (fun p => p.1 == cls)).map (fun _ => (cls, t)) := by
  induction l with
  | nil => rfl
  | cons hd tl ih =>
      by_cases h : hd.1 = cls
      · simp [List.find?_cons, h]
      · simp [List.find?_cons, h, ih]

theorem getTable?_setTable_self {α : Type} (net : Net α) (cls : String) (t : Table α) :
    (net.setTable cls t).getTable? cls = (net.getTable? cls).map (fun _ => t) := by
  unfold Net.setTable Net.getTable?
  rw [find?_map_setTable]
  cases net.tables.find? (fun p => p.1 == cls) <;> rfl

theorem find?_map_setTable_other {α : Type} (l : List (String × Table α))
    (cls other : String) (t : Table α) (h : other ≠ cls) :
    (l.map (fun p => if p.1 = cls then (p.1, t) else p)).find? (fun p => p.1 == other) =
      (l.find? (fun p => p.1 == other)).map
        (fun p => if p.1 = cls then (p.1, t) else p) := by
  induction l with
  | nil => rfl
  | cons hd tl ih =>
      have h3 : cls ≠ other := Ne.symm h
      by_cases h1 : hd.1 = other
      · by_cases h2 : hd.1 = cls
        · exact absurd (h2 ▸ h1) (by simpa using h.symm)
        · simp [List.find?_cons, h1, h2, h3, h]
      · by_cases h2 : hd.1 = cls
        · simp [List.find?_cons, h1, h2, h3, ih]
        · simp [List.find?_cons, h1, h2, ih]

theorem getTable?_setTable_other {α : Type} (net : Net α) (cls other : String)
    (t : Table α) (h : other ≠ cls) :
    (net.setTable cls t).getTable? other = net.getTable? other := by
  unfold Net.setTable Net.getTable?
  rw [find?_map_setTable_other _ _ _ _ h, Option.map_map]
  cases hf : net.tables.find? (fun p => p.1 == other) with
  | none => rfl
  | some p =>
      have hp : p.1 = other := by simpa using List.find?_some hf
      have hnc : ¬ p.1 = cls := by rw [hp]; exact h
      simp [Function.comp, hnc]

theorem write_table_getElem? {α : Type} (tbl : Table α) (ix : List ℕ)
    (field : String) (v : α) (i : ℕ) :
    (tbl.enum.map (fun p => if p.1 ∈ ix then setField p.2 field v else p.2))[i]? =
      (tbl[i]?).map (fun r => if i ∈ ix then setField r field v else r) := by
  rw [List.getElem?_map, List.getElem?_enum]
  cases tbl[i]? <;> rfl

/-- C3 (amended): for a binding whose table name starts with `res_`, a read
is permitted, and a write is permitted as well: instead of failing with a
`ReadOnlyBindingError` (no such error exists in the source) the value is
written into the result table at the rows resolved by name lookup in the
stripped-prefix definition table, while every other table stays unchanged. -/
theorem C3_res_write_amended {α : Type} (net : Net α) (cls comp field key : String)
    (v : α) (defTbl tbl : Table α)
    (hres : startsWithRes cls = true)
    (hdef : net.getTable? (dropResMarker cls) = some defTbl)
    (htbl : net.getTable? cls = some tbl)
    (hkey : pySplitDot key = [cls, comp, field]) :
    (readBinding net key).isSome ∧
    ∃ net2, writeBinding net key v = some net2 ∧
      (∃ tbl2, net2.getTable? cls = some tbl2 ∧
        ∀ i, tbl2[i]? = (tbl[i]?).map
          (fun r => if i ∈ matchingIdx defTbl comp then setField r field v else r)) ∧
      ∀ other, other ≠ cls → net2.getTable? other = net.getTable? other := by
  have hparse : parseBinding key = some (cls, comp, field) := by
    unfold parseBinding
    rw [hkey]
  have hrx : resolveIx net cls comp = some (matchingIdx defTbl comp) := by
    unfold resolveIx lookupTableName
    rw [if_pos hres, hdef]
    rfl
  constructor
  · simp only [readBinding, hparse, Option.some_bind, hrx, htbl, Option.map_some']
    rfl
  · simp only [writeBinding, hparse, Option.some_bind, hrx, htbl, Option.map_some']
    refine ⟨_, rfl,
      ⟨tbl.enum.map (fun p => if p.1 ∈ matchingIdx defTbl comp then setField p.2 field v
        else p.2), ?_, ?_⟩, ?_⟩
    · rw [getTable?_setTable_self, htbl]
      rfl
    · intro i
      exact write_table_getElem? tbl (matchingIdx defTbl comp) field v i
    · intro other hother
      exact getTable?_setTable_other net cls other _ hother

/-- Witness for C3 (amended) on the concrete network `netC3` and the binding
`res_load.Load1.p_mw`. -/
theorem C3_res_write_amended_witness :
    (startsWithRes "res_load" = true ∧
     netC3.getTable? (dropResMarker "res_load") = some [⟨"Load1", [("p_mw", 1)]⟩] ∧
     netC3.getTable? "res_load" = some [⟨"", [("p_mw", 10)]⟩] ∧
     pySplitDot "res_load.Load1.p_mw" = ["res_load", "Load1", "p_mw"]) ∧
    ((readBinding netC3 "res_load.Load1.p_mw").isSome ∧
     ∃ net2, writeBinding netC3 "res_load.Load1.p_mw" (5 : ℕ) = some net2 ∧
       (∃ tbl2, net2.getTable? "res_load" = some tbl2 ∧
         ∀ i, tbl2[i]? = (([⟨"", [("p_mw", 10)]⟩] : Table ℕ)[i]?).map
           (fun r => if i ∈ matchingIdx [⟨"Load1", [("p_mw", 1)]⟩] "Load1"
                     then setField r "p_mw" 5 else r)) ∧
       ∀ other, other ≠ "res_load" → net2.getTable? other = netC3.getTable? other) :=
  ⟨⟨by decide, by decide, by decide, by decide⟩,
   C3_res_write_amended netC3 "res_load" "Load1" "p_mw" "res_load.Load1.p_mw" 5
     [⟨"Load1", [("p_mw", 1)]⟩] [⟨"", [("p_mw", 10)]⟩]
     (by decide) (by decide) (by decide) (by decide)⟩

/-- C5: resolving `res_load.Load1.p_mw` on a network whose `load` table has
the row named `Load1` at index 2 yields row index 2, and the read returns
the value stored at index 2 of the result table `res_load`; in general, for
a `res_*` table the resolved row indices are exactly the positions whose row
in the stripped-prefix definition table bears the component name, and those
indices are the ones used in the result table. -/
theorem C5_res_index_from_definition_table :
    ((netC5.getTable? "load").getD [])[2]? = some ⟨"Load1", []⟩ ∧
    ((netC5.getTable? "res_load").getD [])[2]? = some ⟨"", [("p_mw", 30)]⟩ ∧
    resolveIx netC5 "res_load" "Load1" = some [2] ∧
    readBinding netC5 "res_load.Load1.p_mw" = some [30] ∧
    (∀ (α : Type) (net : Net α) (cls comp : String) (defTbl : Table α),
      startsWithRes cls = true →
      net.getTable? (dropResMarker cls) = some defTbl →
      resolveIx net cls comp = some (matchingIdx defTbl comp) ∧
      ∀ i, i ∈ matchingIdx defTbl comp ↔ ∃ r, defTbl[i]? = some r ∧ r.name = comp) := by
  refine ⟨by decide, by decide, by decide, by decide, ?_⟩
  intro α net cls comp defTbl hres hdef
  constructor
  · unfold resolveIx lookupTableName
    rw [if_pos hres, hdef]
    rfl
  · intro i
    exact mem_matchingIdx defTbl comp i

/-- C7 (amended): a binding path with fewer than three dot-separated tokens
fails (with an index error; no `InvalidBindingPathError` exists in the
source), while a path with three or more tokens is parsed without error
using its first three tokens. -/
theorem C7_parse_amended (key : String) :
    (parseBinding key = none ↔ (pySplitDot key).length < 3) ∧
    ∀ a b c rest, pySplitDot key = a :: b :: c :: rest →
      parseBinding key = some (a, b, c) := by
  constructor
  · rcases hsplit : pySplitDot key with _ | ⟨a, _ | ⟨b, _ | ⟨c, rest⟩⟩⟩ <;>
      simp [parseBinding, hsplit]
  · intro a b c rest h
    unfold parseBinding
    rw [h]

/-- Witness for C7 (amended) at the two-token path `a.b`. -/
theorem C7_parse_amended_witness :
    (parseBinding "a.b" = none ↔ (pySplitDot "a.b").length < 3) ∧
    ∀ a b c rest, pySplitDot "a.b" = a :: b :: c :: rest →
      parseBinding "a.b" = some (a, b, c) :=
  C7_parse_amended "a.b"

/-- C8 (amended): resolution returns the set of all rows whose name matches
the component; a write through a binding with no matching row succeeds and
silently leaves the table unchanged (no `UnknownComponentError`), and a
write with several matching rows succeeds and updates every one of them (no
`AmbiguousComponentError`). -/
theorem C8_match_multiplicity_amended {α : Type} (net : Net α)
    (cls comp field key : String) (v : α) (lk tbl : Table α)
    (hlk : net.getTable? (lookupTableName cls) = some lk)
    (htbl : net.getTable? cls = some tbl)
    (hkey : pySplitDot key = [cls, comp, field]) :
    resolveIx net cls comp = some (matchingIdx lk comp) ∧
    (∀ i, i ∈ matchingIdx lk comp ↔ ∃ r, lk[i]? = some r ∧ r.name = comp) ∧
    ∃ net2, writeBinding net key v = some net2 ∧
      ∃ tbl2, net2.getTable? cls = some tbl2 ∧
        (∀ i, tbl2[i]? = (tbl[i]?).map
          (fun r => if i ∈ matchingIdx lk comp then setField r field v else r)) ∧
        (matchingIdx lk comp = [] → tbl2 = tbl) := by
  have hparse : parseBinding key = some (cls, comp, field) := by
    unfold parseBinding
    rw [hkey]
  have hrx : resolveIx net cls comp = some (matchingIdx lk comp) := by
    unfold resolveIx
    rw [hlk]
    rfl
  refine ⟨hrx, fun i => mem_matchingIdx lk comp i, ?_⟩
  simp only [writeBinding, hparse, Option.some_bind, hrx, htbl, Option.map_some']
  refine ⟨_, rfl,
    tbl.enum.map (fun p => if p.1 ∈ matchingIdx lk comp then setField p.2 field v
      else p.2), ?_, ?_, ?_⟩
  · rw [getTable?_setTable_self, htbl]
    rfl
  · intro i
    exact write_table_getElem? tbl (matchingIdx lk comp) field v i
  · intro h0
    rw [h0]
    simp [List.enum_map_snd]

/-- Witness for C8 (amended) on the concrete network `netC8` and the
binding `load.Dup.p_mw` whose component name matches two rows. -/
theorem C8_match_multiplicity_amended_witness :
    (netC8.getTable? (lookupTableName "load") =
       some [⟨"A", [("p_mw", 1)]⟩, ⟨"Dup", [("p_mw", 2)]⟩, ⟨"Dup", [("p_mw", 3)]⟩] ∧
     netC8.getTable? "load" =
       some [⟨"A", [("p_mw", 1)]⟩, ⟨"Dup", [("p_mw", 2)]⟩, ⟨"Dup", [("p_mw", 3)]⟩] ∧
     pySplitDot "load.Dup.p_mw" = ["load", "Dup", "p_mw"]) ∧
    (resolveIx netC8 "load" "Dup" =
       some (matchingIdx [⟨"A", [("p_mw", 1)]⟩, ⟨"Dup", [("p_mw", 2)]⟩,
         ⟨"Dup", [("p_mw", 3)]⟩] "Dup") ∧
     (∀ i, i ∈ matchingIdx [⟨"A", [("p_mw", 1)]⟩, ⟨"Dup", [("p_mw", 2)]⟩,
         ⟨"Dup", [("p_mw", 3)]⟩] "Dup" ↔
       ∃ r, ([⟨"A", [("p_mw", 1)]⟩, ⟨"Dup", [("p_mw", 2)]⟩,
         ⟨"Dup", [("p_mw", 3)]⟩] : Table ℕ)[i]? = some r ∧ r.name = "Dup") ∧
     ∃ net2, writeBinding netC8 "load.Dup.p_mw" (7 : ℕ) = some net2 ∧
       ∃ tbl2, net2.getTable? "load" = some tbl2 ∧
         (∀ i, tbl2[i]? = (([⟨"A", [("p_mw", 1)]⟩, ⟨"Dup", [("p_mw", 2)]⟩,
             ⟨"Dup", [("p_mw", 3)]⟩] : Table ℕ)[i]?).map
           (fun r => if i ∈ matchingIdx [⟨"A", [("p_mw", 1)]⟩, ⟨"Dup", [("p_mw", 2)]⟩,
               ⟨"Dup", [("p_mw", 3)]⟩] "Dup" then setField r "p_mw" 7 else r)) ∧
         (matchingIdx [⟨"A", [("p_mw", 1)]⟩, ⟨"Dup", [("p_mw", 2)]⟩,
             ⟨"Dup", [("p_mw", 3)]⟩] "Dup" = [] →
           tbl2 = [⟨"A", [("p_mw", 1)]⟩, ⟨"Dup", [("p_mw", 2)]⟩,
             ⟨"Dup", [("p_mw", 3)]⟩])) :=
  ⟨⟨by decide, by decide, by decide⟩,
   C8_match_multiplicity_amended netC8 "load" "Dup" "p_mw" "load.Dup.p_mw" 7
     [⟨"A", [("p_mw", 1)]⟩, ⟨"Dup", [("p_mw", 2)]⟩, ⟨"Dup", [("p_mw", 3)]⟩]
     [⟨"A", [("p_mw", 1)]⟩, ⟨"Dup", [("p_mw", 2)]⟩, ⟨"Dup", [("p_mw", 3)]⟩]
     (by decide) (by decide) (by decide)⟩

/-- C6: after `_load_profiles` the profiles table has the same rows, every
row holds a materialized series, a row that lacked one now holds exactly the
series read from its declared file and column, and a row supplied with a
series is left exactly as supplied. -/
theorem C6_load_profiles {α : Type} (readCsv : String → ℕ → List (ℚ × α))
    (rows : List (ProfileRow α)) :
    (load_profiles readCsv rows).length = rows.length ∧
    ∀ (i : ℕ) (r : ProfileRow α), rows[i]? = some r →
      (∃ r2, (load_profiles readCsv rows)[i]? = some r2 ∧ r2.profile.isSome) ∧
      (r.profile = none →
        (load_profiles readCsv rows)[i]? =
          some { r with profile := some (readCsv r.file r.column) }) ∧
      (∀ s, r.profile = some s → (load_profiles readCsv rows)[i]? = some r) := by
  refine ⟨by simp [load_profiles], ?_⟩
  intro i r hr
  have hmap : (load_profiles readCsv rows)[i]? = some (loadProfileRow readCsv r) := by
    simp [load_profiles, List.getElem?_map, hr]
  refine ⟨⟨loadProfileRow readCsv r, hmap, ?_⟩, ?_, ?_⟩
  · unfold loadProfileRow
    cases hp : r.profile with
    | none => simp
    | some s => simp [hp]
  · intro hnone
    rw [hmap]
    unfold loadProfileRow
    rw [hnone]
  · intro s hs
    rw [hmap]
    unfold loadProfileRow
    rw [hs]

/-- Witness for C6 on a concrete profiles table and reader. -/
theorem C6_load_profiles_witness :
    (load_profiles csvC6 rowsC6).length = rowsC6.length ∧
    ∀ (i : ℕ) (r : ProfileRow ℕ), rowsC6[i]? = some r →
      (∃ r2, (load_profiles csvC6 rowsC6)[i]? = some r2 ∧ r2.profile.isSome) ∧
      (r.profile = none →
        (load_profiles csvC6 rowsC6)[i]? =
          some { r with profile := some (csvC6 r.file r.column) }) ∧
      (∀ s, r.profile = some s → (load_profiles csvC6 rowsC6)[i]? = some r) :=
  C6_load_profiles csvC6 rowsC6

/-- C9: on a network with at least one non-empty result table,
`get_pp_results` returns a time-stamped flattened row and leaves the network
itself unchanged: the source copies every result dataframe before touching it
(line 298) and only reads the definition tables, so the network after the
call is the very network that went in. -/
theorem C9_results_leave_net_unchanged {α : Type} (net : Net α) (time : ℚ)
    (h : net.tables.any (fun p => startsWithRes p.1 && !p.2.isEmpty) = true) :
    ∃ row, get_pp_results net time = some (net, time, row) := by
  unfold get_pp_results
  have hne : net.tables.filter (fun p => startsWithRes p.1 && !p.2.isEmpty) ≠ [] := by
    rw [List.any_eq_true] at h
    obtain ⟨p, hp, hpred⟩ := h
    intro hcon
    rw [List.filter_eq_nil_iff] at hcon
    exact hcon p hp hpred
  rw [if_neg (by simpa [List.isEmpty_iff] using hne)]
  exact ⟨_, rfl⟩

/-- Witness for C9 on the concrete network `netC9` at time 3/2. -/
theorem C9_results_leave_net_unchanged_witness :
    netC9.tables.any (fun p => startsWithRes p.1 && !p.2.isEmpty) = true ∧
    ∃ row, get_pp_results netC9 (3 / 2) = some (netC9, 3 / 2, row) :=
  ⟨by decide, C9_results_leave_net_unchanged netC9 (3 / 2) (by decide)⟩

theorem foldl_loadNet (files : List String) (acc : Option String) :
    files.foldl (fun a f => if endsWithP f then some f else a) acc =
      (match (files.filter (fun f => endsWithP f)).getLast? with
       | some g => some g
       | none => acc) := by
  induction files generalizing acc with
  | nil => rfl
  | cons hd tl ih =>
      by_cases h : endsWithP hd
      · rw [List.foldl_cons, if_pos h, ih, List.filter_cons_of_pos h]
        cases hfl : tl.filter (fun f => endsWithP f) with
        | nil => simp
        | cons x xs =>
            rw [List.getLast?_cons_cons]
            have hsome : ((x :: xs).getLast?).isSome := by
              rw [List.getLast?_isSome]
              exact List.cons_ne_nil x xs
            obtain ⟨g, hg⟩ := Option.isSome_iff_exists.mp hsome
            rw [hg]
      · rw [List.foldl_cons, if_neg h, ih, List.filter_cons_of_neg h]

/-- C10: `init` raises its model-loading error exactly when no file of the
working directory ends in `.p` (the FMU is then not initialized), and when
one or more such files exist the network loaded is the one from the last
matching file in directory-listing order, with no error for multiplicity. -/
theorem C10_model_file_discovery (files : List String) :
    (initLoadNet files = Except.error "Loading pandapower network from file failed" ↔
      ∀ f ∈ files, endsWithP f = false) ∧
    ∀ g, (files.filter (fun f => endsWithP f)).getLast? = some g →
      initLoadNet files = Except.ok g := by
  have hload := foldl_loadNet files none
  constructor
  · unfold initLoadNet loadNetFile
    rw [hload]
    cases hfl : (files.filter (fun f => endsWithP f)).getLast? with
    | none =>
        rw [List.getLast?_eq_none_iff] at hfl
        rw [List.filter_eq_nil_iff] at hfl
        simp only [true_iff]
        intro f hf
        exact Bool.not_eq_true _ ▸ (Bool.eq_false_iff.mpr (hfl f hf))
    | some g =>
        simp only [reduceCtorEq, false_iff, not_forall]
        have hmem : g ∈ files.filter (fun f => endsWithP f) :=
          List.mem_of_getLast?_eq_some hfl
        rw [List.mem_filter] at hmem
        exact ⟨g, hmem.1, by simp [hmem.2]⟩
  · intro g hg
    unfold initLoadNet loadNetFile
    rw [hload, hg]

/-- Witness for C10 on a listing with one non-matching and two matching
files: the last matching file wins and no error is raised. -/
theorem C10_model_file_discovery_witness :
    ((initLoadNet ["readme.md", "net1.p", "net2.p"] =
        Except.error "Loading pandapower network from file failed" ↔
      ∀ f ∈ ["readme.md", "net1.p", "net2.p"], endsWithP f = false) ∧
    ∀ g, (["readme.md", "net1.p", "net2.p"].filter (fun f => endsWithP f)).getLast? =
        some g →
      initLoadNet ["readme.md", "net1.p", "net2.p"] = Except.ok g) :=
  C10_model_file_discovery ["readme.md", "net1.p", "net2.p"]

theorem takeWhile_le_of_split (a : List (ℚ × ℚ)) (p : ℚ × ℚ) (b : List (ℚ × ℚ)) (t : ℚ)
    (ha : ∀ x ∈ a, x.1 ≤ t) (hp : p.1 ≤ t) (hb : ∀ y ∈ b, ¬ y.1 ≤ t) :
    (a ++ p :: b).takeWhile (fun q => decide (q.1 ≤ t)) = a ++ [p] := by
  induction a with
  | nil =>
      simp only [List.nil_append]
      rw [List.takeWhile_cons_of_pos (by simpa using hp)]
      cases b with
      | nil => rfl
      | cons y ys =>
          rw [List.takeWhile_cons_of_neg (by simpa using hb y (List.mem_cons_self y ys))]
  | cons x a' ih =>
      simp only [List.cons_append]
      rw [List.takeWhile_cons_of_pos (by simpa using ha x (List.mem_cons_self x a'))]
      rw [ih (fun z hz => ha z (List.mem_cons_of_mem x hz))]

theorem getD_append_cons (a : List (ℚ × ℚ)) (p : ℚ × ℚ) (b : List (ℚ × ℚ)) (d : ℚ × ℚ) :
    (a ++ p :: b).getD a.length d = p := by
  rw [List.getD_eq_getElem?_getD, List.getElem?_append_right (le_refl a.length)]
  simp

theorem findIdx_append_cons (a : List (ℚ × ℚ)) (p : ℚ × ℚ) (b : List (ℚ × ℚ))
    (pr : ℚ × ℚ → Bool) (ha : ∀ x ∈ a, pr x = false) (hp : pr p = true) :
    (a ++ p :: b).findIdx pr = a.length := by
  induction a with
  | nil => simp [List.findIdx_cons, hp]
  | cons x a' ih =>
      simp only [List.cons_append, List.findIdx_cons, ha x (List.mem_cons_self x a'),
        cond_false]
      rw [ih (fun z hz => ha z (List.mem_cons_of_mem x hz))]
      rfl

theorem last_key_ge (l : List (ℚ × ℚ)) (hne2 : l ≠ []) (t : ℚ)
    (a : List (ℚ × ℚ)) (p : ℚ × ℚ) (b : List (ℚ × ℚ))
    (hsplit : l = a ++ p :: b)
    (hp : t ≤ p.1) (hb : ∀ y ∈ b, t ≤ y.1) :
    t ≤ (l.getLast hne2).1 := by
  have h1 : l.getLast? = some (l.getLast hne2) := List.getLast?_eq_getLast l hne2
  have h2 : l.getLast? = some ((p :: b).getLast (List.cons_ne_nil p b)) := by
    rw [hsplit, List.getLast?_append,
      List.getLast?_eq_getLast (p :: b) (List.cons_ne_nil p b)]
    rfl
  have h3 : l.getLast hne2 = (p :: b).getLast (List.cons_ne_nil p b) :=
    Option.some.inj (h1.symm.trans h2)
  rw [h3]
  have hmem := List.getLast_mem (List.cons_ne_nil p b)
  rcases List.mem_cons.mp hmem with h4 | h4
  · rw [h4]
    exact hp
  · exact hb _ h4

theorem interp_lt_head (p : ℚ × ℚ) (rest : List (ℚ × ℚ)) (t : ℚ) (h : t < p.1) :
    get_interpolated_row (p :: rest) t = some p.2 := by
  simp only [get_interpolated_row]
  rw [if_pos h]

theorem interp_gt_last (s : List (ℚ × ℚ)) (hne : s ≠ [])
    (hs : s.Pairwise (fun x y => x.1 < y.1)) (t : ℚ) (h : (s.getLast hne).1 < t) :
    get_interpolated_row s t = some (s.getLast hne).2 := by
  cases s with
  | nil => exact absurd rfl hne
  | cons p rest =>
      simp only [get_interpolated_row]
      have hple : p.1 ≤ ((p :: rest).getLast (List.cons_ne_nil p rest)).1 := by
        have hmem := List.getLast_mem (List.cons_ne_nil p rest)
        rcases List.mem_cons.mp hmem with h1 | h1
        · rw [h1]
        · exact le_of_lt ((List.pairwise_cons.mp hs).1 _ h1)
      rw [if_neg (not_lt.mpr (le_trans hple (le_of_lt h))), if_pos h]

theorem interp_at_exact (p : ℚ × ℚ) (rest : List (ℚ × ℚ)) (t : ℚ)
    (h1 : ¬ t < p.1)
    (h2 : ¬ ((p :: rest).getLast (List.cons_ne_nil p rest)).1 < t)
    (a : List (ℚ × ℚ)) (q : ℚ × ℚ) (b : List (ℚ × ℚ))
    (hsplit : p :: rest = a ++ q :: b)
    (ha : ∀ x ∈ a, x.1 ≤ t) (hq : q.1 ≤ t) (hb : ∀ y ∈ b, ¬ y.1 ≤ t)
    (heq : t = q.1) :
    get_interpolated_row (p :: rest) t = some q.2 := by
  have htw : (p :: rest).takeWhile (fun r => decide (r.1 ≤ t)) = a ++ [q] := by
    rw [hsplit]
    exact takeWhile_le_of_split a q b t ha hq hb
  have hgd : (p :: rest).getD a.length (0, 0) = q := by
    rw [hsplit]
    exact getD_append_cons a q b (0, 0)
  simp only [get_interpolated_row]
  rw [if_neg h1, if_neg h2]
  simp only [htw, List.length_append, List.length_cons, List.length_nil,
    Nat.add_sub_cancel, Nat.zero_add]
  rw [hgd, if_pos heq]

theorem interp_at_between (p : ℚ × ℚ) (rest : List (ℚ × ℚ)) (t : ℚ)
    (h1 : ¬ t < p.1)
    (h2 : ¬ ((p :: rest).getLast (List.cons_ne_nil p rest)).1 < t)
    (a : List (ℚ × ℚ)) (t1 v1 t2 v2 : ℚ) (b : List (ℚ × ℚ))
    (hsplit : p :: rest = a ++ (t1, v1) :: (t2, v2) :: b)
    (ha : ∀ x ∈ a, x.1 < t) (hb : ∀ y ∈ b, t < y.1) (h3 : t1 < t) (h4 : t < t2) :
    get_interpolated_row (p :: rest) t =
      some (v1 + (t - t1) * (v2 - v1) / (t2 - t1)) := by
  have hassoc : a ++ (t1, v1) :: (t2, v2) :: b = (a ++ [(t1, v1)]) ++ (t2, v2) :: b := by
    simp
  have htw : (p :: rest).takeWhile (fun r => decide (r.1 ≤ t)) = a ++ [(t1, v1)] := by
    rw [hsplit]
    refine takeWhile_le_of_split a (t1, v1) ((t2, v2) :: b) t
      (fun x hx => le_of_lt (ha x hx)) (le_of_lt h3) ?_
    intro y hy
    rcases List.mem_cons.mp hy with h5 | h5
    · rw [h5]
      exact not_le.mpr h4
    · exact not_le.mpr (hb y h5)
  have hfi : (p :: rest).findIdx (fun r => decide (t ≤ r.1)) = a.length + 1 := by
    rw [hsplit, hassoc]
    have hres := findIdx_append_cons (a ++ [(t1, v1)]) (t2, v2) b
      (fun r => decide (t ≤ r.1)) ?_ (by simpa using le_of_lt h4)
    · rw [hres]
      simp
    · intro x hx
      rcases List.mem_append.mp hx with h5 | h5
      · simpa using not_le.mpr (ha x h5)
      · rw [List.mem_singleton.mp h5]
        simpa using not_le.mpr h3
  have hgd1 : (p :: rest).getD a.length (0, 0) = (t1, v1) := by
    rw [hsplit]
    exact getD_append_cons a (t1, v1) ((t2, v2) :: b) (0, 0)
  have hgd2 : (p :: rest).getD (a.length + 1) (0, 0) = (t2, v2) := by
    rw [hsplit, hassoc]
    have hres := getD_append_cons (a ++ [(t1, v1)]) (t2, v2) b (0, 0)
    simpa using hres
  simp only [get_interpolated_row]
  rw [if_neg h1, if_neg h2]
  simp only [htw, List.length_append, List.length_cons, List.length_nil,
    Nat.add_sub_cancel, Nat.zero_add]
  rw [hgd1, if_neg (by simpa using (ne_of_gt h3))]
  rw [hfi, hgd2]

theorem interp_exact (s : List (ℚ × ℚ)) (hs : s.Pairwise (fun x y => x.1 < y.1))
    (t v : ℚ) (hmem : (t, v) ∈ s) :
    get_interpolated_row s t = some v := by
  obtain ⟨a, b, rfl⟩ := List.append_of_mem hmem
  rw [List.pairwise_append] at hs
  obtain ⟨ha, hb, hcross⟩ := hs
  have hbkeys : ∀ y ∈ b, t < y.1 := fun y hy => (List.pairwise_cons.mp hb).1 y hy
  have hakeys : ∀ x ∈ a, x.1 < t :=
    fun x hx => hcross x hx (t, v) (List.mem_cons_self _ _)
  cases a with
  | nil =>
      refine interp_at_exact (t, v) b t (lt_irrefl t) ?_ [] (t, v) b rfl
        (by intro x hx; exact absurd hx (List.not_mem_nil x)) (le_refl t)
        (fun y hy => not_le.mpr (hbkeys y hy)) rfl
      exact not_lt.mpr (last_key_ge ((t, v) :: b) (List.cons_ne_nil _ _) t
        [] (t, v) b rfl (le_refl t) (fun y hy => le_of_lt (hbkeys y hy)))
  | cons x a' =>
      have hx1 : x.1 < t := hakeys x (List.mem_cons_self x a')
      have hsp : x :: (a' ++ (t, v) :: b) = (x :: a') ++ (t, v) :: b := rfl
      refine interp_at_exact x (a' ++ (t, v) :: b) t (not_lt.mpr (le_of_lt hx1)) ?_
        (x :: a') (t, v) b hsp
        (fun z hz => le_of_lt (hakeys z hz)) (le_refl t)
        (fun y hy => not_le.mpr (hbkeys y hy)) rfl
      exact not_lt.mpr (last_key_ge (x :: (a' ++ (t, v) :: b)) (List.cons_ne_nil _ _) t
        (x :: a') (t, v) b hsp (le_refl t) (fun y hy => le_of_lt (hbkeys y hy)))

theorem interp_between (s : List (ℚ × ℚ)) (hs : s.Pairwise (fun x y => x.1 < y.1))
    (t : ℚ) (a : List (ℚ × ℚ)) (t1 v1 t2 v2 : ℚ) (b : List (ℚ × ℚ))
    (hsplit : s = a ++ (t1, v1) :: (t2, v2) :: b) (h3 : t1 < t) (h4 : t < t2) :
    get_interpolated_row s t = some (v1 + (t - t1) * (v2 - v1) / (t2 - t1)) := by
  subst hsplit
  rw [List.pairwise_append] at hs
  obtain ⟨ha, hb, hcross⟩ := hs
  have hbkeys : ∀ y ∈ b, t < y.1 := by
    intro y hy
    have h5 := (List.pairwise_cons.mp ((List.pairwise_cons.mp hb).2)).1 y hy
    calc t < t2 := h4
      _ < y.1 := h5
  have hakeys : ∀ x ∈ a, x.1 < t := by
    intro x hx
    calc x.1 < t1 := hcross x hx (t1, v1) (List.mem_cons_self _ _)
      _ < t := h3
  cases a with
  | nil =>
      refine interp_at_between (t1, v1) ((t2, v2) :: b) t (not_lt.mpr (le_of_lt h3)) ?_
        [] t1 v1 t2 v2 b rfl
        (by intro x hx; exact absurd hx (List.not_mem_nil x)) hbkeys h3 h4
      exact not_lt.mpr (last_key_ge ((t1, v1) :: (t2, v2) :: b)
        (List.cons_ne_nil _ _) t [(t1, v1)] (t2, v2) b rfl (le_of_lt h4)
        (fun y hy => le_of_lt (hbkeys y hy)))
  | cons x a' =>
      have hx1 : x.1 < t := hakeys x (List.mem_cons_self x a')
      have hsp : x :: (a' ++ (t1, v1) :: (t2, v2) :: b) =
          (x :: a') ++ (t1, v1) :: (t2, v2) :: b := rfl
      have hsp2 : x :: (a' ++ (t1, v1) :: (t2, v2) :: b) =
          (x :: (a' ++ [(t1, v1)])) ++ (t2, v2) :: b := by
        simp
      refine interp_at_between x (a' ++ (t1, v1) :: (t2, v2) :: b) t
        (not_lt.mpr (le_of_lt hx1)) ?_ (x :: a') t1 v1 t2 v2 b hsp
        (fun z hz => hakeys z hz) hbkeys h3 h4
      exact not_lt.mpr (last_key_ge (x :: (a' ++ (t1, v1) :: (t2, v2) :: b))
        (List.cons_ne_nil _ _) t (x :: (a' ++ [(t1, v1)])) (t2, v2) b hsp2
        (le_of_lt h4) (fun y hy => le_of_lt (hbkeys y hy)))

/-- C4: on a non-empty numeric series with strictly increasing times,
`get_interpolated_row` returns the first value below the first index, the
last value above the last index, the stored value unchanged on an exact
index hit, and otherwise the linear interpolation
`lowerVal + (queryTime - lowerTime) * (upperVal - lowerVal) / (upperTime - lowerTime)`
between the bounding samples. -/
theorem C4_interpolator (s : List (ℚ × ℚ)) (hs : s.Pairwise (fun x y => x.1 < y.1))
    (hne : s ≠ []) (t : ℚ) :
    (∀ p rest, s = p :: rest → t < p.1 → get_interpolated_row s t = some p.2) ∧
    ((s.getLast hne).1 < t → get_interpolated_row s t = some (s.getLast hne).2) ∧
    (∀ v, (t, v) ∈ s → get_interpolated_row s t = some v) ∧
    (∀ a t1 v1 t2 v2 b, s = a ++ (t1, v1) :: (t2, v2) :: b → t1 < t → t < t2 →
      get_interpolated_row s t = some (v1 + (t - t1) * (v2 - v1) / (t2 - t1))) := by
  refine ⟨?_, ?_, ?_, ?_⟩
  · intro p rest hr hlt
    subst hr
    exact interp_lt_head p rest t hlt
  · intro h
    exact interp_gt_last s hne hs t h
  · intro v hv
    exact interp_exact s hs t v hv
  · intro a t1 v1 t2 v2 b hsplit h3 h4
    exact interp_between s hs t a t1 v1 t2 v2 b hsplit h3 h4

/-- Witness for C4 on the series `[(0, 1), (2, 5)]` at query time 1, where
the interpolated value is `1 + (1 - 0) * (5 - 1) / (2 - 0) = 3`. -/
theorem C4_interpolator_witness :
    (([((0 : ℚ), (1 : ℚ)), (2, 5)]).Pairwise (fun x y => x.1 < y.1) ∧
     ([((0 : ℚ), (1 : ℚ)), (2, 5)] : List (ℚ × ℚ)) ≠ []) ∧
    ((∀ p rest, ([((0 : ℚ), (1 : ℚ)), (2, 5)] : List (ℚ × ℚ)) = p :: rest →
        (1 : ℚ) < p.1 →
        get_interpolated_row [((0 : ℚ), (1 : ℚ)), (2, 5)] 1 = some p.2) ∧
     ((([((0 : ℚ), (1 : ℚ)), (2, 5)]).getLast (by simp)).1 < 1 →
        get_interpolated_row [((0 : ℚ), (1 : ℚ)), (2, 5)] 1 =
          some ((([((0 : ℚ), (1 : ℚ)), (2, 5)]).getLast (by simp)).2)) ∧
     (∀ v, ((1 : ℚ), v) ∈ ([((0 : ℚ), (1 : ℚ)), (2, 5)] : List (ℚ × ℚ)) →
        get_interpolated_row [((0 : ℚ), (1 : ℚ)), (2, 5)] 1 = some v) ∧
     (∀ a t1 v1 t2 v2 b,
        ([((0 : ℚ), (1 : ℚ)), (2, 5)] : List (ℚ × ℚ)) =
          a ++ (t1, v1) :: (t2, v2) :: b →
        t1 < 1 → (1 : ℚ) < t2 →
        get_interpolated_row [((0 : ℚ), (1 : ℚ)), (2, 5)] 1 =
          some (v1 + (1 - t1) * (v2 - v1) / (t2 - t1)))) :=
  ⟨⟨by norm_num [List.pairwise_cons], by simp⟩,
   C4_interpolator [((0 : ℚ), (1 : ℚ)), (2, 5)]
     (by norm_num [List.pairwise_cons]) (by simp) 1⟩
